/-
Verification of the structural matching engine in
`crates/core/src/match_tree.rs` (ast-grep pattern matcher).

The Rust module is shallowly embedded: concrete-syntax-tree nodes, pattern
trees and the meta-variable environment are explicit inductive data; the
matcher's `&mut Cow<MetaVarEnv>` parameter becomes explicit state passing
(every function returns the possibly-extended environment together with its
result, mirroring the fact that in Rust mutations through the `Cow` made
before a failure stay visible to the caller of the failing call).
-/
import Mathlib

set_option maxHeartbeats 1000000

/-- A concrete-syntax-tree node handle: stable identity, syntax-kind id, raw
source text, byte-range end, named-ness flag and ordered children.  This is
the node interface consumed by `match_tree.rs` (`node_id`, `kind_id`,
`text`, `range().end`, `is_named`, `children`). -/
inductive Node where
  | node (nodeId : Nat) (kindId : Nat) (text : String) (rangeEnd : Nat)
         (isNamed : Bool) (children : List Node)


def Node.node_id : Node → Nat
  | .node i _ _ _ _ _ => i

def Node.kind_id : Node → Nat
  | .node _ k _ _ _ _ => k

def Node.text : Node → String
  | .node _ _ t _ _ _ => t

def Node.range_end : Node → Nat
  | .node _ _ _ e _ _ => e

def Node.is_named : Node → Bool
  | .node _ _ _ _ n _ => n

def Node.children : Node → List Node
  | .node _ _ _ _ _ cs => cs

/-- Modelled from the spec: `Node::is_named_leaf` lives outside this module
(in the node abstraction); per the spec a named leaf is a node that is named
and has no named children. -/
def Node.is_named_leaf (n : Node) : Bool :=
  n.is_named && n.children.all fun c => !c.is_named

/-- The meta-variable descriptor consumed by the matcher
(`crate::meta_var::MetaVariable`). -/
inductive MetaVariable where
  | Capture (name : String) (named : Bool)
  | Dropped (named : Bool)
  | Multiple
  | MultiCapture (name : String)


/-- The compiled pattern tree consumed by the matcher (`crate::Pattern`):
Terminal (fixed text + kind), MetaVar (placeholder descriptor), Internal
(fixed kind + ordered child patterns). -/
inductive Pattern where
  | Terminal (text : String) (isNamed : Bool) (kindId : Nat)
  | MetaVar (metaVar : MetaVariable)
  | Internal (kindId : Nat) (children : List Pattern)


/-- Modelled from the spec: `Pattern::is_trivial` is defined outside this
module; a trivial goal token is an elidable (non-named) Terminal pattern
token. -/
def Pattern.is_trivial : Pattern → Bool
  | .Terminal _ isNamed _ => !isNamed
  | _ => false

/-- `try_get_ellipsis_mode` (match_tree.rs:42): `.ok none` for an unnamed
ellipsis, `.ok (some name)` for a named one, `.error` otherwise. -/
def try_get_ellipsis_mode (node : Pattern) : Except Unit (Option String) :=
  match node with
  | .MetaVar metaVar =>
    match metaVar with
    | .Multiple => .ok none
    | .MultiCapture n => .ok (some n)
    | _ => .error ()
  | _ => .error ()

mutual

/-- `does_node_match_exactly` (match_tree.rs:295): identity short-circuit,
then the gh#1087 named-leaf text relaxation, then kind id, child count and
pairwise recursive equality. -/
def does_node_match_exactly : Node → Node → Bool
  | g@(.node gid _ gtext _ _ gch), c@(.node cid _ ctext _ _ cch) =>
    if gid == cid then
      true
    else if g.is_named_leaf || c.is_named_leaf then
      gtext == ctext
    else if g.kind_id != c.kind_id then
      false
    else if gch.length != cch.length then
      false
    else
      nodesMatchExactlyList gch cch

/-- The `zip ... all` step of `does_node_match_exactly`: pairwise recursive
equality, stopping at the shorter list (the caller checks the lengths). -/
def nodesMatchExactlyList : List Node → List Node → Bool
  | [], _ => true
  | _, [] => true
  | g :: gs, c :: cs => does_node_match_exactly g c && nodesMatchExactlyList gs cs

end

/-- Association-list update used by the environment maps: replace the value
stored under an existing key, or append a fresh entry. -/
def updateAssoc {α : Type} : List (String × α) → String → α → List (String × α)
  | [], key, val => [(key, val)]
  | (k, v) :: rest, key, val =>
    if k == key then (k, val) :: rest else (k, v) :: updateAssoc rest key val

/-- Association-list lookup used by the environment maps. -/
def lookupAssoc {α : Type} : List (String × α) → String → Option α
  | [], _ => none
  | (k, v) :: rest, key => if k == key then some v else lookupAssoc rest key

/-- Modelled from the spec: the binding environment `MetaVarEnv` is owned by
`crate::meta_var`, outside this module.  Per the spec it maps names either
to one bound node (single capture) or to an ordered list of bound nodes
(multi capture), the two kinds kept apart. -/
structure MetaVarEnv where
  singles : List (String × Node)
  multis : List (String × List Node)

/-- The empty environment a caller starts a match attempt with. -/
def MetaVarEnv.empty : MetaVarEnv := ⟨[], []⟩

/-- Modelled from the spec: `MetaVarEnv::insert` lives in `crate::meta_var`.
Insertion of a new single-capture name always succeeds; insertion of a name
that already holds a binding succeeds only if the new candidate node is
exactly-equal to the stored one, otherwise it fails and leaves the bindings
unchanged. -/
def MetaVarEnv.insert (env : MetaVarEnv) (name : String) (node : Node) :
    Option MetaVarEnv :=
  match lookupAssoc env.singles name with
  | some stored =>
    if does_node_match_exactly stored node then
      some { env with singles := updateAssoc env.singles name node }
    else
      none
  | none => some { env with singles := updateAssoc env.singles name node }

/-- Pairwise exact-equality of two bound node lists (same length, each pair
exactly-equal). -/
def nodeListMatchExactly (a b : List Node) : Bool :=
  a.length == b.length && nodesMatchExactlyList a b

/-- Modelled from the spec: `MetaVarEnv::insert_multi` lives in
`crate::meta_var`.  Insertion of a new multi-capture name succeeds;
re-insertion succeeds only if the new list is exactly-equal to the stored
one, otherwise it fails and leaves the bindings unchanged. -/
def MetaVarEnv.insert_multi (env : MetaVarEnv) (name : String)
    (nodes : List Node) : Option MetaVarEnv :=
  match lookupAssoc env.multis name with
  | some stored =>
    if nodeListMatchExactly stored nodes then
      some { env with multis := updateAssoc env.multis name nodes }
    else
      none
  | none => some { env with multis := updateAssoc env.multis name nodes }

/-- `match_leaf_meta_var` (match_tree.rs:6).  The Rust signature mutates the
environment through a `Cow`; here the (possibly cloned-and-extended)
environment is returned next to the result.  The `MV::Multiple` arm carries
a `debug_assert!(false, ...)`: with debug assertions compiled out (release
builds) the arm returns `Some(candidate)`, which is what this embedding
models. -/
def match_leaf_meta_var (mv : MetaVariable) (candidate : Node)
    (env : MetaVarEnv) : Option Node × MetaVarEnv :=
  match mv with
  | .Capture name named =>
    if named && !candidate.is_named then
      (none, env)
    else
      match env.insert name candidate with
      | none => (none, env)
      | some env' => (some candidate, env')
  | .Dropped named =>
    if named && !candidate.is_named then (none, env) else (some candidate, env)
  | .Multiple => (some candidate, env)
  | .MultiCapture name =>
    match env.insert name candidate with
    | none => (none, env)
    | some env' => (some candidate, env')

/-- `update_ellipsis_env` (match_tree.rs:53): when the ellipsis is named,
extend the provisional capture list with the rest of the candidate iterator,
drop the last `skipped_anonymous` elements (`saturating_sub` + `drain`) and
bind the list; an unnamed ellipsis binds nothing. -/
def update_ellipsis_env (optionalName : Option String) (matched : List Node)
    (env : MetaVarEnv) (candChildren : List Node) (skippedAnonymous : Nat) :
    Option Unit × MetaVarEnv :=
  match optionalName with
  | none => (some (), env)
  | some name =>
    let m := matched ++ candChildren
    let kept := m.take (m.length - skippedAnonymous)
    match env.insert_multi name kept with
    | none => (none, env)
    | some env' => (some (), env')

/-- Dropping a trivia-skipping run of goal tokens never grows the list's
size (used for the matchers' termination). -/
theorem sizeOf_dropWhile_le (p : Pattern → Bool) (l : List Pattern) :
    sizeOf (List.dropWhile p l) ≤ sizeOf l := by
  induction l with
  | nil => simp [List.dropWhile]
  | cons x xs ih =>
    simp only [List.dropWhile]
    cases p x with
    | true => simp only [List.cons.sizeOf_spec]; omega
    | false => simp

mutual

/-- `match_node_non_recursive` (match_tree.rs:170): Terminal by kind and
text, MetaVar through the leaf matcher, Internal by kind and the sequence
matcher over the children (`.map(|_| candidate)` keeps the environment that
the sequence matcher produced, also on failure). -/
def match_node_non_recursive (goal : Pattern) (candidate : Node)
    (env : MetaVarEnv) : Option Node × MetaVarEnv :=
  match goal with
  | .Terminal text _ kindId =>
    if kindId == candidate.kind_id then
      if text == candidate.text then (some candidate, env) else (none, env)
    else
      (none, env)
  | .MetaVar mv => match_leaf_meta_var mv candidate env
  | .Internal kindId children =>
    if kindId == candidate.kind_id then
      let r := match_nodes_non_recursive children candidate.children env
      (r.1.map fun _ => candidate, r.2)
    else
      (none, env)
termination_by (sizeOf goal, 0, 0)

/-- `match_nodes_non_recursive` (match_tree.rs:196): the initial
`cand_children.peek()?` — an empty candidate sequence fails before any goal
child is examined — followed by the main loop (`matchNodesGo`). -/
def match_nodes_non_recursive (goals : List Pattern) (candidates : List Node)
    (env : MetaVarEnv) : Option Unit × MetaVarEnv :=
  match candidates with
  | [] => (none, env)
  | c :: cs => matchNodesGo goals (c :: cs) env
termination_by (sizeOf goals, candidates.length, 2)

/-- One iteration of the sequence-matcher loop (match_tree.rs:204-292),
entered with the goal cursor on `goals` and the candidate cursor on `cands`.
The ellipsis branch (rs:206-263) splits into: trailing ellipsis
(rs:210-229, merging the two textually identical early returns for "no goal
child after the ellipsis" and "only trivial goal children after it"),
adjacent ellipsis separated only by trivial tokens (rs:231-242), and the
lazy forward scan (rs:243-263, `ellipsisFind`) followed by the fall-through
into the candidate scan.  A non-ellipsis goal child goes straight to the
candidate scan (`scanGo`). -/
def matchNodesGo (goals : List Pattern) (cands : List Node)
    (env : MetaVarEnv) : Option Unit × MetaVarEnv :=
  match goals with
  | [] => (none, env)
  | g :: gs =>
    match try_get_ellipsis_mode g with
    | .error _ => scanGo g gs cands env
    | .ok optionalName =>
      let skippedAnonymous := (gs.takeWhile Pattern.is_trivial).length
      match hdrop : gs.dropWhile Pattern.is_trivial with
      | [] => update_ellipsis_env optionalName [] env cands skippedAnonymous
      | g' :: gs'' =>
        if (try_get_ellipsis_mode g').isOk then
          match cands with
          | [] => (none, env)
          | c :: cs =>
            match cs with
            | [] => (none, env)
            | c2 :: cs2 =>
              let u := update_ellipsis_env optionalName [c] env [] skippedAnonymous
              if u.1.isSome then matchNodesGo (g' :: gs'') (c2 :: cs2) u.2
              else (none, u.2)
        else
          let fr := ellipsisFind g' [] cands env
          match fr.1 with
          | some (cap, rest) =>
            let u := update_ellipsis_env optionalName cap fr.2 [] skippedAnonymous
            if u.1.isSome then scanGo g' gs'' rest u.2 else (none, u.2)
          | none => (none, fr.2)
termination_by (sizeOf goals, cands.length, 1)
decreasing_by
  all_goals simp_wf
  all_goals
    (try (have h1 := sizeOf_dropWhile_le Pattern.is_trivial gs; rw [hdrop] at h1;
          simp only [List.cons.sizeOf_spec] at h1))
  all_goals
    first
    | (apply Prod.Lex.left; simp_arith; omega)
    | (apply Prod.Lex.left; omega)
    | (apply Prod.Lex.right; apply Prod.Lex.left; omega)
    | (apply Prod.Lex.right; apply Prod.Lex.right; omega)
    | decreasing_tactic

/-- The lazy ellipsis scan (match_tree.rs:243-263): walk the candidates,
accumulating each non-matching one into the provisional capture list, until
the next goal child matches; fail when the candidates run out.  Returns the
accumulated capture list and the remaining candidates (positioned on the
matching one), next to the threaded environment. -/
def ellipsisFind (g' : Pattern) (acc : List Node) (cands : List Node)
    (env : MetaVarEnv) : Option (List Node × List Node) × MetaVarEnv :=
  match cands with
  | [] => (none, env)
  | c :: cs =>
    let r := match_node_non_recursive g' c env
    if r.1.isSome then (some (acc, c :: cs), r.2)
    else
      match cs with
      | [] => (none, r.2)
      | c2 :: cs2 => ellipsisFind g' (acc ++ [c]) (c2 :: cs2) r.2
termination_by (sizeOf g', cands.length, 1)

/-- The candidate scan for one goal child (match_tree.rs:265-292): a
matching candidate is consumed; a non-matching unnamed candidate is skipped
silently; a non-matching named candidate fails the sequence.  After a match,
goal exhaustion succeeds (rs:286-288); otherwise the candidate cursor
advances and must not be exhausted (rs:290-291). -/
def scanGo (g : Pattern) (gs : List Pattern) (cands : List Node)
    (env : MetaVarEnv) : Option Unit × MetaVarEnv :=
  match cands with
  | [] => (none, env)
  | c :: cs =>
    let r := match_node_non_recursive g c env
    if r.1.isSome then
      match gs with
      | [] => (some (), r.2)
      | g2 :: gs2 =>
        match cs with
        | [] => (none, r.2)
        | c2 :: cs2 => matchNodesGo (g2 :: gs2) (c2 :: cs2) r.2
    else if !c.is_named then scanGo g gs cs r.2
    else (none, r.2)
termination_by (1 + sizeOf g + sizeOf gs, cands.length, 0)

end

mutual

/-- `match_end_non_recursive` (match_tree.rs:69): any MetaVar goal matches
unconditionally and yields the candidate's range end; Terminal by kind and
text; Internal by kind and the end-offset sequence matcher. -/
def match_end_non_recursive (goal : Pattern) (candidate : Node) : Option Nat :=
  match goal with
  | .MetaVar _ => some candidate.range_end
  | .Internal kindId children =>
    if kindId == candidate.kind_id then
      match_multi_nodes_end_non_recursive children candidate.children
    else
      none
  | .Terminal text _ kindId =>
    if kindId == candidate.kind_id then
      if text == candidate.text then some candidate.range_end else none
    else
      none
termination_by (sizeOf goal, 0, 0)

/-- `match_multi_nodes_end_non_recursive` (match_tree.rs:93): the initial
`cand_children.peek()?` seeds the running end offset with the first
candidate's range end, then the main loop runs (`matchEndGo`). -/
def match_multi_nodes_end_non_recursive (goals : List Pattern)
    (cands : List Node) : Option Nat :=
  match cands with
  | [] => none
  | c :: cs => matchEndGo goals (c :: cs) c.range_end
termination_by (sizeOf goals, cands.length, 2)

/-- One iteration of the end-offset sequence loop (match_tree.rs:100-167),
structurally parallel to `matchNodesGo`: trailing ellipsis returns the last
candidate's end (rs:105-120), an adjacent ellipsis consumes one candidate
(rs:122-126), otherwise the lazy scan (`ellipsisFindEnd`) runs and control
falls through into the candidate scan (`scanEndGo`). -/
def matchEndGo (goals : List Pattern) (cands : List Node) (e : Nat) :
    Option Nat :=
  match goals with
  | [] => none
  | g :: gs =>
    match try_get_ellipsis_mode g with
    | .error _ => scanEndGo g gs cands
    | .ok _ =>
      match hdrop : gs.dropWhile Pattern.is_trivial with
      | [] => some (((cands.getLast?).map Node.range_end).getD e)
      | g' :: gs'' =>
        if (try_get_ellipsis_mode g').isOk then
          match cands with
          | [] => none
          | _ :: cs =>
            match cs with
            | [] => none
            | c2 :: cs2 => matchEndGo (g' :: gs'') (c2 :: cs2) e
        else
          let fr := ellipsisFindEnd g' cands
          if fr.isSome then scanEndGo g' gs'' (fr.getD []) else none
termination_by (sizeOf goals, cands.length, 1)
decreasing_by
  all_goals simp_wf
  all_goals
    (try (have h1 := sizeOf_dropWhile_le Pattern.is_trivial gs; rw [hdrop] at h1;
          simp only [List.cons.sizeOf_spec] at h1))
  all_goals
    first
    | (apply Prod.Lex.left; simp_arith; omega)
    | (apply Prod.Lex.left; omega)
    | (apply Prod.Lex.right; apply Prod.Lex.left; omega)
    | (apply Prod.Lex.right; apply Prod.Lex.right; omega)
    | decreasing_tactic

/-- The lazy ellipsis scan of the end-offset matcher (match_tree.rs:127-139):
walk the candidates until the next goal child end-matches one; fail when
they run out.  Returns the remaining candidates positioned on the matching
one. -/
def ellipsisFindEnd (g' : Pattern) (cands : List Node) : Option (List Node) :=
  match cands with
  | [] => none
  | c :: cs =>
    if (match_end_non_recursive g' c).isSome then some (c :: cs)
    else
      match cs with
      | [] => none
      | c2 :: cs2 => ellipsisFindEnd g' (c2 :: cs2)
termination_by (sizeOf g', cands.length, 1)

/-- The candidate scan of the end-offset matcher (match_tree.rs:142-166):
skip non-matching unnamed candidates, fail on a non-matching named one; a
match fixes the new running end offset, then goal exhaustion returns it,
otherwise the loop continues on the remaining goals and candidates. -/
def scanEndGo (g : Pattern) (gs : List Pattern) (cands : List Node) :
    Option Nat :=
  match cands with
  | [] => none
  | c :: cs =>
    let r := match_end_non_recursive g c
    if r.isSome then
      match gs with
      | [] => r
      | g2 :: gs2 =>
        match cs with
        | [] => none
        | c2 :: cs2 => matchEndGo (g2 :: gs2) (c2 :: cs2) (r.getD 0)
    else if !c.is_named then scanEndGo g gs cs
    else none
termination_by (1 + sizeOf g + sizeOf gs, cands.length, 0)

end


mutual

/-- Whether a pattern contains no meta-variable leaves anywhere. -/
def metaVarFree : Pattern → Bool
  | .Terminal _ _ _ => true
  | .MetaVar _ => false
  | .Internal _ children => metaVarFreeList children

def metaVarFreeList : List Pattern → Bool
  | [] => true
  | p :: ps => metaVarFree p && metaVarFreeList ps

end

/-- Whether a `Capture` insertion is free of a conflicting prior binding:
either the name is unbound, or the stored node is exactly-equal to the new
candidate. -/
def captureCompatible (name : String) (cand : Node) (env : MetaVarEnv) : Bool :=
  match lookupAssoc env.singles name with
  | some stored => does_node_match_exactly stored cand
  | none => true

/-- Domain growth between two environments: every name bound in the first
is still bound in the second (singles and multis separately). -/
def envDomLe (a b : MetaVarEnv) : Prop :=
  (∀ n : String, (lookupAssoc a.singles n).isSome = true →
    (lookupAssoc b.singles n).isSome = true)
  ∧ (∀ n : String, (lookupAssoc a.multis n).isSome = true →
    (lookupAssoc b.multis n).isSome = true)

/-- The environment threaded through the first `pre.length` positions of an
ellipsis scan for the next goal child `g'`: each position's speculative
attempt may extend the environment even when it fails. -/
def ellipsisScanEnv (g' : Pattern) (env : MetaVarEnv) (pre : List Node) :
    MetaVarEnv :=
  pre.foldl (fun e c => (match_node_non_recursive g' c e).2) env

def defaultNode : Node := .node 0 0 "" 0 false []

/-!
Concrete fixtures used by the per-claim counterexamples and witnesses.
-/

def fixNamed : Node := .node 1 2 "x" 1 true []

def c7wCand : Node := .node 3 4 "y" 2 true []

def c9wA : Node := .node 1 2 "foo" 3 true []
def c9wB : Node := .node 2 9 "foo" 3 false [.node 3 4 "f" 1 false []]

def c1Term : Pattern := .Terminal "a" true 7
def c1Ell : Pattern := .MetaVar .Multiple
def c1CandA : Node := .node 1 7 "a" 1 true []
def c1CandB : Node := .node 2 8 "b" 2 true []

def c6Stored : Node := .node 5 1 "test" 4 true []
def c6Cand : Node := .node 9 1 "foo" 3 true []
def c6Env : MetaVarEnv := ⟨[("A", c6Stored)], []⟩

def c2CapA : Pattern := .MetaVar (.Capture "A" true)
def c2TermB : Pattern := .Terminal "b" true 12
def c2Goal : Pattern := .Internal 5 [c2CapA, c2TermB]
def c2X : Node := .node 1 10 "x" 1 true []
def c2C : Node := .node 2 11 "c" 2 true []
def c2Cand : Node := .node 3 5 "xc" 2 true [c2X, c2C]

def c2BaseNode : Node := .node 8 3 "w" 9 true []
def c2BaseEnv : MetaVarEnv := ⟨[("B", c2BaseNode)], []⟩

def c3Unnamed : Node := .node 1 3 ")" 5 false []

def c3wGoal : Pattern := .Terminal "x" true 4
def c3wCand : Node := .node 2 4 "x" 7 true []

def c5wG : Pattern := .Terminal "z" true 5
def c5wC : Node := .node 4 6 "q" 2 true []

def c8wG : Pattern := .Terminal "x" true 3
def c8wPunct : Node := .node 5 9 "," 1 false []
def c8wX : Node := .node 6 3 "x" 2 true []

/-!
Branch-unfolding lemmas for the two sequence-loop functions: the dependent
match on `gs.dropWhile Pattern.is_trivial` (named `hdrop` for termination)
blocks direct simp reduction, so each loop branch gets its own equation.
-/

theorem matchNodesGo_nil (cands : List Node) (env : MetaVarEnv) :
    matchNodesGo [] cands env = (none, env) := by
  rw [matchNodesGo]

theorem matchNodesGo_err (g : Pattern) (gs : List Pattern) (cands : List Node)
    (env : MetaVarEnv) (h : try_get_ellipsis_mode g = .error ()) :
    matchNodesGo (g :: gs) cands env = scanGo g gs cands env := by
  rw [matchNodesGo, h]

theorem matchNodesGo_trailing (g : Pattern) (gs : List Pattern)
    (cands : List Node) (env : MetaVarEnv) (nm : Option String)
    (h : try_get_ellipsis_mode g = .ok nm)
    (hd : gs.dropWhile Pattern.is_trivial = []) :
    matchNodesGo (g :: gs) cands env =
      update_ellipsis_env nm [] env cands (gs.takeWhile Pattern.is_trivial).length := by
  rw [matchNodesGo, h]
  split
  · rename_i a heq; exact Except.noConfusion heq
  · rename_i optName heq
    cases heq
    split
    · rfl
    · rename_i g' gs'' heq2
      rw [hd] at heq2
      exact List.noConfusion heq2

theorem matchNodesGo_adjacent (g : Pattern) (gs : List Pattern)
    (cands : List Node) (env : MetaVarEnv) (nm nm2 : Option String)
    (g' : Pattern) (gs'' : List Pattern)
    (h : try_get_ellipsis_mode g = .ok nm)
    (hd : gs.dropWhile Pattern.is_trivial = g' :: gs'')
    (h2 : try_get_ellipsis_mode g' = .ok nm2) :
    matchNodesGo (g :: gs) cands env =
      match cands with
      | [] => (none, env)
      | c :: cs =>
        match cs with
        | [] => (none, env)
        | c2 :: cs2 =>
          let u := update_ellipsis_env nm [c] env []
            (gs.takeWhile Pattern.is_trivial).length
          if u.1.isSome then matchNodesGo (g' :: gs'') (c2 :: cs2) u.2
          else (none, u.2) := by
  rw [matchNodesGo, h]
  split
  · rename_i a heq; exact Except.noConfusion heq
  · rename_i optName heq
    cases heq
    split
    · rename_i heq2; rw [hd] at heq2; exact List.noConfusion heq2
    · rename_i g2 gs2 heq2
      rw [hd] at heq2
      cases heq2
      simp [h2, Except.isOk, Except.toBool]

theorem matchNodesGo_scan (g : Pattern) (gs : List Pattern)
    (cands : List Node) (env : MetaVarEnv) (nm : Option String)
    (g' : Pattern) (gs'' : List Pattern)
    (h : try_get_ellipsis_mode g = .ok nm)
    (hd : gs.dropWhile Pattern.is_trivial = g' :: gs'')
    (h2 : try_get_ellipsis_mode g' = .error ()) :
    matchNodesGo (g :: gs) cands env =
      (let fr := ellipsisFind g' [] cands env
       match fr.1 with
       | some (cap, rest) =>
         let u := update_ellipsis_env nm cap fr.2 []
           (gs.takeWhile Pattern.is_trivial).length
         if u.1.isSome then scanGo g' gs'' rest u.2 else (none, u.2)
       | none => (none, fr.2)) := by
  rw [matchNodesGo, h]
  split
  · rename_i a heq; exact Except.noConfusion heq
  · rename_i optName heq
    cases heq
    split
    · rename_i heq2; rw [hd] at heq2; exact List.noConfusion heq2
    · rename_i g2 gs2 heq2
      rw [hd] at heq2
      cases heq2
      simp [h2, Except.isOk, Except.toBool]

theorem matchEndGo_nil (cands : List Node) (e : Nat) :
    matchEndGo [] cands e = none := by
  rw [matchEndGo]

theorem matchEndGo_err (g : Pattern) (gs : List Pattern) (cands : List Node)
    (e : Nat) (h : try_get_ellipsis_mode g = .error ()) :
    matchEndGo (g :: gs) cands e = scanEndGo g gs cands := by
  rw [matchEndGo, h]

theorem matchEndGo_trailing (g : Pattern) (gs : List Pattern)
    (cands : List Node) (e : Nat) (nm : Option String)
    (h : try_get_ellipsis_mode g = .ok nm)
    (hd : gs.dropWhile Pattern.is_trivial = []) :
    matchEndGo (g :: gs) cands e =
      some (((cands.getLast?).map Node.range_end).getD e) := by
  rw [matchEndGo, h]
  split
  · rename_i a heq; exact Except.noConfusion heq
  · rename_i optName heq
    cases heq
    split
    · rfl
    · rename_i g' gs'' heq2
      rw [hd] at heq2
      exact List.noConfusion heq2

theorem matchEndGo_adjacent (g : Pattern) (gs : List Pattern)
    (cands : List Node) (e : Nat) (nm nm2 : Option String)
    (g' : Pattern) (gs'' : List Pattern)
    (h : try_get_ellipsis_mode g = .ok nm)
    (hd : gs.dropWhile Pattern.is_trivial = g' :: gs'')
    (h2 : try_get_ellipsis_mode g' = .ok nm2) :
    matchEndGo (g :: gs) cands e =
      match cands with
      | [] => none
      | _ :: cs =>
        match cs with
        | [] => none
        | c2 :: cs2 => matchEndGo (g' :: gs'') (c2 :: cs2) e := by
  rw [matchEndGo, h]
  split
  · rename_i a heq; exact Except.noConfusion heq
  · rename_i optName heq
    cases heq
    split
    · rename_i heq2; rw [hd] at heq2; exact List.noConfusion heq2
    · rename_i g2 gs2 heq2
      rw [hd] at heq2
      cases heq2
      simp [h2, Except.isOk, Except.toBool]

theorem matchEndGo_scan (g : Pattern) (gs : List Pattern)
    (cands : List Node) (e : Nat) (nm : Option String)
    (g' : Pattern) (gs'' : List Pattern)
    (h : try_get_ellipsis_mode g = .ok nm)
    (hd : gs.dropWhile Pattern.is_trivial = g' :: gs'')
    (h2 : try_get_ellipsis_mode g' = .error ()) :
    matchEndGo (g :: gs) cands e =
      (let fr := ellipsisFindEnd g' cands
       if fr.isSome then scanEndGo g' gs'' (fr.getD []) else none) := by
  rw [matchEndGo, h]
  split
  · rename_i a heq; exact Except.noConfusion heq
  · rename_i optName heq
    cases heq
    split
    · rename_i heq2; rw [hd] at heq2; exact List.noConfusion heq2
    · rename_i g2 gs2 heq2
      rw [hd] at heq2
      cases heq2
      simp [h2, Except.isOk, Except.toBool]

/-!
Helper lemmas on the association lists, boolean equality and sizes.
-/

theorem lookupAssoc_updateAssoc_self {α : Type} (xs : List (String × α))
    (k : String) (v : α) : lookupAssoc (updateAssoc xs k v) k = some v := by
  induction xs with
  | nil => simp [updateAssoc, lookupAssoc]
  | cons p rest ih =>
    obtain ⟨k1, v1⟩ := p
    by_cases h : (k1 == k) = true
    · simp [updateAssoc, lookupAssoc, h]
    · simp only [updateAssoc, lookupAssoc, h, Bool.false_eq_true, if_false,
        if_neg]
      exact ih

theorem beq_comm_nat (a b : Nat) : (a == b) = (b == a) := by
  by_cases h : a = b
  · simp [h]
  · simp [h, Ne.symm h]

theorem beq_comm_str (a b : String) : (a == b) = (b == a) := by
  by_cases h : a = b
  · simp [h]
  · simp [h, Ne.symm h]

theorem bne_comm_nat (a b : Nat) : (a != b) = (b != a) := by
  simp only [bne]
  rw [beq_comm_nat]

theorem sizeOf_dropWhile_eq_le (p : Pattern → Bool) {gs res : List Pattern}
    (hd : gs.dropWhile p = res) : sizeOf res ≤ sizeOf gs :=
  hd ▸ sizeOf_dropWhile_le p gs

/-!
Environment-domain monotonicity: no function of the matcher ever removes a
binding from the environment it threads.
-/

theorem envDomLe_refl (a : MetaVarEnv) : envDomLe a a :=
  ⟨fun _ h => h, fun _ h => h⟩

theorem envDomLe_trans {a b c : MetaVarEnv} (h1 : envDomLe a b)
    (h2 : envDomLe b c) : envDomLe a c :=
  ⟨fun n h => h2.1 n (h1.1 n h), fun n h => h2.2 n (h1.2 n h)⟩

theorem lookupAssoc_updateAssoc_isSome {α : Type} (xs : List (String × α))
    (k n : String) (v : α) (h : (lookupAssoc xs n).isSome = true) :
    (lookupAssoc (updateAssoc xs k v) n).isSome = true := by
  induction xs with
  | nil => simp [lookupAssoc] at h
  | cons p rest ih =>
    obtain ⟨k1, v1⟩ := p
    by_cases h1 : (k1 == k) = true
    · by_cases h2 : (k1 == n) = true <;>
        simp_all [updateAssoc, lookupAssoc]
    · by_cases h2 : (k1 == n) = true <;>
        simp_all [updateAssoc, lookupAssoc]

theorem insert_envDomLe (env : MetaVarEnv) (name : String) (node : Node)
    (env' : MetaVarEnv) (h : env.insert name node = some env') :
    envDomLe env env' := by
  unfold MetaVarEnv.insert at h
  cases hl : lookupAssoc env.singles name with
  | some stored =>
    rw [hl] at h
    by_cases he : does_node_match_exactly stored node = true
    · simp only [he, if_true] at h
      cases h
      exact ⟨fun n hn => lookupAssoc_updateAssoc_isSome _ _ _ _ hn,
             fun n hn => hn⟩
    · simp [he] at h
  | none =>
    rw [hl] at h
    simp only at h
    cases h
    exact ⟨fun n hn => lookupAssoc_updateAssoc_isSome _ _ _ _ hn,
           fun n hn => hn⟩

theorem insert_multi_envDomLe (env : MetaVarEnv) (name : String)
    (nodes : List Node) (env' : MetaVarEnv)
    (h : env.insert_multi name nodes = some env') : envDomLe env env' := by
  unfold MetaVarEnv.insert_multi at h
  cases hl : lookupAssoc env.multis name with
  | some stored =>
    rw [hl] at h
    by_cases he : nodeListMatchExactly stored nodes = true
    · simp only [he, if_true] at h
      cases h
      exact ⟨fun n hn => hn,
             fun n hn => lookupAssoc_updateAssoc_isSome _ _ _ _ hn⟩
    · simp [he] at h
  | none =>
    rw [hl] at h
    simp only at h
    cases h
    exact ⟨fun n hn => hn,
           fun n hn => lookupAssoc_updateAssoc_isSome _ _ _ _ hn⟩

theorem match_leaf_envDomLe (mv : MetaVariable) (cand : Node)
    (env : MetaVarEnv) :
    envDomLe env (match_leaf_meta_var mv cand env).2 := by
  cases mv with
  | Capture name named =>
    simp only [match_leaf_meta_var]
    split
    · exact envDomLe_refl env
    · cases hi : env.insert name cand with
      | none => exact envDomLe_refl env
      | some env' => exact insert_envDomLe env name cand env' hi
  | Dropped named =>
    simp only [match_leaf_meta_var]
    split <;> exact envDomLe_refl env
  | Multiple => exact envDomLe_refl env
  | MultiCapture name =>
    simp only [match_leaf_meta_var]
    cases hi : env.insert name cand with
    | none => exact envDomLe_refl env
    | some env' => exact insert_envDomLe env name cand env' hi

theorem update_ellipsis_envDomLe (nm : Option String) (matched : List Node)
    (env : MetaVarEnv) (candChildren : List Node) (k : Nat) :
    envDomLe env (update_ellipsis_env nm matched env candChildren k).2 := by
  cases nm with
  | none => exact envDomLe_refl env
  | some name =>
    simp only [update_ellipsis_env]
    cases hi : env.insert_multi name
        (((matched ++ candChildren).take
          ((matched ++ candChildren).length - k))) with
    | none => exact envDomLe_refl env
    | some env' => exact insert_multi_envDomLe env name _ env' hi

mutual

theorem match_node_envDomLe (goal : Pattern) (cand : Node) (env : MetaVarEnv) :
    envDomLe env (match_node_non_recursive goal cand env).2 := by
  cases goal with
  | Terminal text isNamed kindId =>
    simp only [match_node_non_recursive]
    split
    · split
      · exact envDomLe_refl env
      · exact envDomLe_refl env
    · exact envDomLe_refl env
  | MetaVar mv =>
    simp only [match_node_non_recursive]
    exact match_leaf_envDomLe mv cand env
  | Internal kindId children =>
    simp only [match_node_non_recursive]
    split
    · exact match_nodes_envDomLe children cand.children env
    · exact envDomLe_refl env
termination_by (sizeOf goal, 0, 0)

theorem match_nodes_envDomLe (goals : List Pattern) (candidates : List Node)
    (env : MetaVarEnv) :
    envDomLe env (match_nodes_non_recursive goals candidates env).2 := by
  cases candidates with
  | nil =>
    simp only [match_nodes_non_recursive]
    exact envDomLe_refl env
  | cons c cs =>
    simp only [match_nodes_non_recursive]
    exact matchNodesGo_envDomLe goals (c :: cs) env
termination_by (sizeOf goals, candidates.length, 2)

theorem matchNodesGo_envDomLe (goals : List Pattern) (cands : List Node)
    (env : MetaVarEnv) :
    envDomLe env (matchNodesGo goals cands env).2 := by
  cases goals with
  | nil =>
    rw [matchNodesGo_nil]
    exact envDomLe_refl env
  | cons g gs =>
    cases h : try_get_ellipsis_mode g with
    | error u =>
      cases u
      rw [matchNodesGo_err _ _ _ _ h]
      exact scanGo_envDomLe g gs cands env
    | ok nm =>
      cases hd : gs.dropWhile Pattern.is_trivial with
      | nil =>
        rw [matchNodesGo_trailing _ _ _ _ _ h hd]
        exact update_ellipsis_envDomLe nm [] env cands
          (gs.takeWhile Pattern.is_trivial).length
      | cons g' gs'' =>
        cases h2 : try_get_ellipsis_mode g' with
        | ok nm2 =>
          rw [matchNodesGo_adjacent _ _ _ _ _ _ _ _ h hd h2]
          cases cands with
          | nil => exact envDomLe_refl env
          | cons c cs =>
            cases cs with
            | nil => exact envDomLe_refl env
            | cons c2 cs2 =>
              have hu := update_ellipsis_envDomLe nm [c] env []
                (gs.takeWhile Pattern.is_trivial).length
              by_cases hs : (update_ellipsis_env nm [c] env []
                  (gs.takeWhile Pattern.is_trivial).length).1.isSome = true
              · simp only [hs, if_true]
                exact envDomLe_trans hu
                  (matchNodesGo_envDomLe (g' :: gs'') (c2 :: cs2) _)
              · simp only [hs, Bool.false_eq_true, if_false]
                exact hu
        | error u =>
          cases u
          rw [matchNodesGo_scan _ _ _ _ _ _ _ h hd h2]
          have hf := ellipsisFind_envDomLe g' [] cands env
          cases hfr : (ellipsisFind g' [] cands env).1 with
          | none =>
            simp only [hfr]
            exact hf
          | some pr =>
            obtain ⟨cap, rest⟩ := pr
            simp only [hfr]
            have hu := update_ellipsis_envDomLe nm cap
              (ellipsisFind g' [] cands env).2 []
              (gs.takeWhile Pattern.is_trivial).length
            by_cases hs : (update_ellipsis_env nm cap
                (ellipsisFind g' [] cands env).2 []
                (gs.takeWhile Pattern.is_trivial).length).1.isSome = true
            · simp only [hs, if_true]
              exact envDomLe_trans hf (envDomLe_trans hu
                (scanGo_envDomLe g' gs'' rest _))
            · simp only [hs, Bool.false_eq_true, if_false]
              exact envDomLe_trans hf hu
termination_by (sizeOf goals, cands.length, 1)
decreasing_by
  all_goals simp_wf
  all_goals
    (try (have h1 := sizeOf_dropWhile_eq_le Pattern.is_trivial hd;
          simp only [List.cons.sizeOf_spec] at h1))
  all_goals try simp only [List.cons.sizeOf_spec]
  all_goals
    first
    | (apply Prod.Lex.left; simp_arith; omega)
    | (apply Prod.Lex.left; omega)
    | (apply Prod.Lex.right; apply Prod.Lex.left; omega)
    | (apply Prod.Lex.right; apply Prod.Lex.right; omega)
    | decreasing_tactic

theorem ellipsisFind_envDomLe (g' : Pattern) (acc : List Node)
    (cands : List Node) (env : MetaVarEnv) :
    envDomLe env (ellipsisFind g' acc cands env).2 := by
  cases cands with
  | nil =>
    rw [ellipsisFind.eq_def]
    exact envDomLe_refl env
  | cons c cs =>
    rw [ellipsisFind.eq_def]
    have hr := match_node_envDomLe g' c env
    by_cases hs : (match_node_non_recursive g' c env).1.isSome = true
    · simp only [hs, if_true]
      exact hr
    · simp only [hs, Bool.false_eq_true, if_false]
      cases cs with
      | nil => exact hr
      | cons c2 cs2 =>
        exact envDomLe_trans hr
          (ellipsisFind_envDomLe g' (acc ++ [c]) (c2 :: cs2) _)
termination_by (sizeOf g', cands.length, 1)

theorem scanGo_envDomLe (g : Pattern) (gs : List Pattern) (cands : List Node)
    (env : MetaVarEnv) :
    envDomLe env (scanGo g gs cands env).2 := by
  cases cands with
  | nil =>
    rw [scanGo.eq_def]
    exact envDomLe_refl env
  | cons c cs =>
    rw [scanGo.eq_def]
    have hr := match_node_envDomLe g c env
    by_cases hs : (match_node_non_recursive g c env).1.isSome = true
    · simp only [hs, if_true]
      cases gs with
      | nil => exact hr
      | cons g2 gs2 =>
        cases cs with
        | nil => exact hr
        | cons c2 cs2 =>
          exact envDomLe_trans hr
            (matchNodesGo_envDomLe (g2 :: gs2) (c2 :: cs2) _)
    · simp only [hs, Bool.false_eq_true, if_false]
      by_cases hn : c.is_named = true
      · simp only [hn, Bool.not_true, Bool.false_eq_true, if_false]
        exact hr
      · simp only [Bool.not_eq_true] at hn
        simp only [hn, Bool.not_false, if_true]
        exact envDomLe_trans hr (scanGo_envDomLe g gs cs _)
termination_by (1 + sizeOf g + sizeOf gs, cands.length, 0)

end

/-!
Characterization of the lazy ellipsis scan.
-/

theorem ellipsisFind_lazy_some (g' : Pattern) :
    ∀ (cands acc : List Node) (env : MetaVarEnv)
      (cap rest : List Node) (env' : MetaVarEnv),
      ellipsisFind g' acc cands env = (some (cap, rest), env') →
      ∃ n, n < cands.length ∧ cap = acc ++ cands.take n
        ∧ rest = cands.drop n
        ∧ (match_node_non_recursive g' (cands.getD n defaultNode)
            (ellipsisScanEnv g' env (cands.take n))).1.isSome = true
        ∧ ∀ j, j < n → (match_node_non_recursive g' (cands.getD j defaultNode)
            (ellipsisScanEnv g' env (cands.take j))).1 = none := by
  intro cands
  induction cands with
  | nil =>
    intro acc env cap rest env' h
    rw [ellipsisFind.eq_def] at h
    simp at h
  | cons c cs ih =>
    intro acc env cap rest env' h
    rw [ellipsisFind.eq_def] at h
    by_cases hs : (match_node_non_recursive g' c env).1.isSome = true
    · simp only [hs, if_true] at h
      obtain ⟨h1, h2⟩ := Prod.mk.injEq .. ▸ h
      obtain ⟨hcap, hrest⟩ := Prod.mk.injEq .. ▸ Option.some.inj h1
      refine ⟨0, by simp, by simp [hcap.symm], by simp [hrest.symm], ?_, ?_⟩
      · simpa [ellipsisScanEnv] using hs
      · intro j hj
        omega
    · simp only [hs, Bool.false_eq_true, if_false] at h
      cases cs with
      | nil => simp at h
      | cons c2 cs2 =>
        obtain ⟨n, hn, hcap, hrest, hmatch, hprev⟩ :=
          ih (acc ++ [c]) (match_node_non_recursive g' c env).2 cap rest env' h
        refine ⟨n + 1, by simpa using hn, ?_, ?_, ?_, ?_⟩
        · rw [hcap]
          simp
        · rw [hrest]
          simp
        · simpa [ellipsisScanEnv] using hmatch
        · intro j hj
          cases j with
          | zero =>
            simpa [ellipsisScanEnv] using
              Option.not_isSome_iff_eq_none.mp (by simpa using hs)
          | succ j' =>
            have := hprev j' (by omega)
            simpa [ellipsisScanEnv] using this

theorem ellipsisFind_all_fail (g' : Pattern) :
    ∀ (cands acc : List Node) (env : MetaVarEnv),
      (∀ j, j < cands.length →
        (match_node_non_recursive g' (cands.getD j defaultNode)
          (ellipsisScanEnv g' env (cands.take j))).1 = none) →
      (ellipsisFind g' acc cands env).1 = none := by
  intro cands
  induction cands with
  | nil =>
    intro acc env _
    rw [ellipsisFind.eq_def]
  | cons c cs ih =>
    intro acc env hall
    rw [ellipsisFind.eq_def]
    have h0 : (match_node_non_recursive g' c env).1 = none := by
      simpa [ellipsisScanEnv] using hall 0 (by simp)
    simp only [h0, Option.isSome_none, Bool.false_eq_true, if_false]
    cases cs with
    | nil => rfl
    | cons c2 cs2 =>
      apply ih (acc ++ [c]) (match_node_non_recursive g' c env).2
      intro j hj
      have := hall (j + 1) (by simpa using hj)
      simpa [ellipsisScanEnv] using this

theorem matchNodesGo_ellipsis_scan_fail (g : Pattern) (gs : List Pattern)
    (g' : Pattern) (gs'' : List Pattern) (nm : Option String)
    (cands : List Node) (env : MetaVarEnv)
    (h : try_get_ellipsis_mode g = .ok nm)
    (hd : gs.dropWhile Pattern.is_trivial = g' :: gs'')
    (h2 : try_get_ellipsis_mode g' = .error ())
    (hfind : (ellipsisFind g' [] cands env).1 = none) :
    (matchNodesGo (g :: gs) cands env).1 = none := by
  rw [matchNodesGo_scan _ _ _ _ _ _ _ h hd h2]
  simp [hfind]

/-!
Symmetry of the exact-equality checker.
-/

mutual

theorem does_node_match_exactly_comm (a b : Node) :
    does_node_match_exactly a b = does_node_match_exactly b a := by
  cases a with | node gid gkind gtext ge gn gch =>
  cases b with | node cid ckind ctext ce cn cch =>
  rw [does_node_match_exactly, does_node_match_exactly]
  simp only [Node.kind_id]
  simp only [beq_comm_nat cid gid, beq_comm_str ctext gtext,
      bne_comm_nat ckind gkind, bne_comm_nat cch.length gch.length]
  by_cases h1 : (gid == cid) = true
  · simp [h1]
  · simp only [h1, Bool.false_eq_true, if_false]
    rw [Bool.or_comm]
    by_cases h2 : ((Node.node cid ckind ctext ce cn cch).is_named_leaf
        || (Node.node gid gkind gtext ge gn gch).is_named_leaf) = true
    · simp [h2]
    · simp only [h2, Bool.false_eq_true, if_false]
      by_cases h3 : (gkind != ckind) = true
      · simp [h3]
      · simp only [h3, Bool.false_eq_true, if_false]
        by_cases h4 : (gch.length != cch.length) = true
        · simp [h4]
        · simp only [h4, Bool.false_eq_true, if_false]
          exact nodesMatchExactlyList_comm gch cch
termination_by sizeOf a + sizeOf b

theorem nodesMatchExactlyList_comm (as bs : List Node) :
    nodesMatchExactlyList as bs = nodesMatchExactlyList bs as := by
  cases as with
  | nil =>
    cases bs with
    | nil => rfl
    | cons b bs2 => rfl
  | cons a as2 =>
    cases bs with
    | nil => rfl
    | cons b bs2 =>
      rw [nodesMatchExactlyList, nodesMatchExactlyList,
          does_node_match_exactly_comm a b, nodesMatchExactlyList_comm as2 bs2]
termination_by sizeOf as + sizeOf bs

end

/-!
Equivalence of the end-offset matcher and the capturing matcher on
meta-variable-free patterns.
-/

theorem try_get_ellipsis_mode_of_free (g : Pattern)
    (h : metaVarFree g = true) : try_get_ellipsis_mode g = .error () := by
  cases g with
  | Terminal text isNamed kindId => rfl
  | MetaVar mv => simp [metaVarFree] at h
  | Internal kindId children => rfl

mutual

theorem end_node_equiv (g : Pattern) (c : Node) (env : MetaVarEnv)
    (hf : metaVarFree g = true) :
    (match_end_non_recursive g c).isSome
      = (match_node_non_recursive g c env).1.isSome := by
  cases g with
  | Terminal text isNamed kindId =>
    rw [match_end_non_recursive, match_node_non_recursive]
    by_cases h1 : (kindId == c.kind_id) = true
    · by_cases h2 : (text == c.text) = true <;> simp [h1, h2]
    · simp [h1]
  | MetaVar mv => simp [metaVarFree] at hf
  | Internal kindId children =>
    rw [match_end_non_recursive, match_node_non_recursive]
    by_cases h1 : (kindId == c.kind_id) = true
    · simp only [h1, if_true]
      have := end_nodes_equiv children c.children env
        (by simpa [metaVarFree] using hf)
      simp [this]
    · simp [h1]
termination_by (sizeOf g, 0, 0)
decreasing_by
  all_goals simp_wf
  all_goals try simp_all only [List.cons.sizeOf_spec, Pattern.Internal.sizeOf_spec]
  all_goals
    first
    | omega
    | (apply Prod.Lex.left; omega)
    | (apply Prod.Lex.right; apply Prod.Lex.left; omega)
    | (apply Prod.Lex.right; apply Prod.Lex.right; omega)
    | decreasing_tactic

theorem end_nodes_equiv (goals : List Pattern) (cands : List Node)
    (env : MetaVarEnv) (hf : metaVarFreeList goals = true) :
    (match_multi_nodes_end_non_recursive goals cands).isSome
      = (match_nodes_non_recursive goals cands env).1.isSome := by
  cases cands with
  | nil =>
    rw [match_multi_nodes_end_non_recursive, match_nodes_non_recursive]
    rfl
  | cons c cs =>
    rw [match_multi_nodes_end_non_recursive, match_nodes_non_recursive]
    exact end_go_equiv goals (c :: cs) c.range_end env hf
termination_by (sizeOf goals, cands.length, 2)
decreasing_by
  all_goals simp_wf
  all_goals try simp_all only [List.cons.sizeOf_spec, Pattern.Internal.sizeOf_spec]
  all_goals
    first
    | omega
    | (apply Prod.Lex.left; omega)
    | (apply Prod.Lex.right; apply Prod.Lex.left; omega)
    | (apply Prod.Lex.right; apply Prod.Lex.right; omega)
    | decreasing_tactic

theorem end_go_equiv (goals : List Pattern) (cands : List Node) (e : Nat)
    (env : MetaVarEnv) (hf : metaVarFreeList goals = true) :
    (matchEndGo goals cands e).isSome
      = (matchNodesGo goals cands env).1.isSome := by
  cases goals with
  | nil => rw [matchEndGo_nil, matchNodesGo_nil]; rfl
  | cons g gs =>
    have hfg : metaVarFree g = true := by
      simp [metaVarFreeList] at hf; exact hf.1
    have hfgs : metaVarFreeList gs = true := by
      simp [metaVarFreeList] at hf; exact hf.2
    have herr := try_get_ellipsis_mode_of_free g hfg
    rw [matchEndGo_err _ _ _ _ herr, matchNodesGo_err _ _ _ _ herr]
    exact end_scan_equiv g gs cands env hfg hfgs
termination_by (sizeOf goals, cands.length, 1)
decreasing_by
  all_goals simp_wf
  all_goals try simp_all only [List.cons.sizeOf_spec, Pattern.Internal.sizeOf_spec]
  all_goals
    first
    | omega
    | (apply Prod.Lex.left; omega)
    | (apply Prod.Lex.right; apply Prod.Lex.left; omega)
    | (apply Prod.Lex.right; apply Prod.Lex.right; omega)
    | decreasing_tactic

theorem end_scan_equiv (g : Pattern) (gs : List Pattern) (cands : List Node)
    (env : MetaVarEnv) (hfg : metaVarFree g = true)
    (hfgs : metaVarFreeList gs = true) :
    (scanEndGo g gs cands).isSome = (scanGo g gs cands env).1.isSome := by
  cases cands with
  | nil => rw [scanEndGo.eq_def, scanGo.eq_def]; rfl
  | cons c cs =>
    rw [scanEndGo.eq_def, scanGo.eq_def]
    have hnode := end_node_equiv g c env hfg
    by_cases hs : (match_node_non_recursive g c env).1.isSome = true
    · have hs' : (match_end_non_recursive g c).isSome = true := by
        rw [hnode]; exact hs
      simp only [hs, hs', if_true]
      cases gs with
      | nil => simpa using hs'
      | cons g2 gs2 =>
        cases cs with
        | nil => rfl
        | cons c2 cs2 =>
          exact end_go_equiv (g2 :: gs2) (c2 :: cs2) _ _ hfgs
    · have hs' : (match_end_non_recursive g c).isSome = false := by
        rw [hnode]; simpa using hs
      simp only [hs', hs, Bool.false_eq_true, if_false]
      by_cases hn : c.is_named = true
      · simp [hn]
      · simp only [Bool.not_eq_true] at hn
        simp only [hn, Bool.not_false, if_true]
        exact end_scan_equiv g gs cs ((match_node_non_recursive g c env).2)
          hfg hfgs
termination_by (1 + sizeOf g + sizeOf gs, cands.length, 0)
decreasing_by
  all_goals simp_wf
  all_goals try simp_all only [List.cons.sizeOf_spec, Pattern.Internal.sizeOf_spec]
  all_goals
    first
    | omega
    | (apply Prod.Lex.left; omega)
    | (apply Prod.Lex.right; apply Prod.Lex.left; omega)
    | (apply Prod.Lex.right; apply Prod.Lex.right; omega)
    | decreasing_tactic

end

/-!
Claims.
-/

/-- C1: the claim says a trailing ellipsis consumes all remaining
candidate children, including zero of them, and the sequence match
succeeds.  The code honours this only when at least one candidate child
remains when the ellipsis is reached: here the Terminal goal child consumes
the sole candidate, the advance-and-peek step (match_tree.rs:291) then
fails on candidate exhaustion before the trailing-ellipsis branch can run,
so `[Terminal a, $$$]` does not match `[a]` — while the same goal list
matches `[a, b]`.  This evaluates the code at the failing input. -/
theorem c1_trailing_ellipsis_exhaustion :
    match_nodes_non_recursive [c1Term, c1Ell] [c1CandA] MetaVarEnv.empty
        = (none, MetaVarEnv.empty)
    ∧ (match_nodes_non_recursive [c1Term, c1Ell] [c1CandA, c1CandB]
        MetaVarEnv.empty).1 = some () := by
  constructor
  · simp [match_nodes_non_recursive, matchNodesGo, scanGo, match_node_non_recursive,
          try_get_ellipsis_mode, c1Term, c1Ell, c1CandA, Node.kind_id, Node.text]
  · simp [match_nodes_non_recursive, matchNodesGo, scanGo, match_node_non_recursive,
          try_get_ellipsis_mode, update_ellipsis_env, c1Term, c1Ell, c1CandA, c1CandB,
          Node.kind_id, Node.text]

/-- C2 counterexample: against `Internal 5 [$A, Terminal b]` the candidate
`xc` fails to match overall (`b` vs `c`), yet the speculative binding
`A ↦ x` made before the failure is still visible in the environment
handed back, which therefore does not hold exactly the (empty) base
bindings. -/
theorem c2_counterexample :
    (match_node_non_recursive c2Goal c2Cand MetaVarEnv.empty).1 = none
    ∧ lookupAssoc ((match_node_non_recursive c2Goal c2Cand
        MetaVarEnv.empty).2).singles "A" = some c2X
    ∧ lookupAssoc MetaVarEnv.empty.singles "A" = none := by
  refine ⟨?_, ?_, rfl⟩ <;>
    simp [match_node_non_recursive, match_nodes_non_recursive, matchNodesGo, scanGo,
          match_leaf_meta_var, MetaVarEnv.insert, try_get_ellipsis_mode, lookupAssoc,
          updateAssoc, MetaVarEnv.empty, c2Goal, c2CapA, c2TermB, c2X, c2C, c2Cand,
          Node.kind_id, Node.text, Node.children, Node.is_named]

/-- C2 (amended): the environment only ever grows — every name bound in
the base environment is still bound after a call, success or failure; the
caller's own base value is untouched by value semantics — but bindings
inserted during failed speculative sub-matches may remain visible. -/
theorem c2_env_monotone (goal : Pattern) (cand : Node) (env : MetaVarEnv) :
    envDomLe env (match_node_non_recursive goal cand env).2 :=
  match_node_envDomLe goal cand env

theorem c2_witness :
    (lookupAssoc ((match_node_non_recursive c2Goal c2Cand
      c2BaseEnv).2).singles "B").isSome = true :=
  (c2_env_monotone c2Goal c2Cand c2BaseEnv).1 "B" (by rfl)

/-- C3 counterexample: the end-offset matcher accepts every candidate at a
MetaVar leaf (match_tree.rs:75) — here a `Capture` with `must_be_named`
against an unnamed candidate — while the full matcher rejects it through
the named-ness gate, so the two matchers do not accept the same pairs. -/
theorem c3_counterexample :
    match_end_non_recursive (.MetaVar (.Capture "A" true)) c3Unnamed = some 5
    ∧ (match_node_non_recursive (.MetaVar (.Capture "A" true)) c3Unnamed
        MetaVarEnv.empty).1 = none := by
  constructor
  · rw [match_end_non_recursive]
    rfl
  · simp [match_node_non_recursive, match_leaf_meta_var, c3Unnamed, Node.is_named]

/-- C3 (amended): on patterns with no meta-variable leaves the end-offset
matcher accepts exactly the pairs the full matcher accepts (same
trivia-skipping and early-success rules); on a MetaVar leaf the end-offset
matcher succeeds unconditionally with the candidate's range end, ignoring
the named-ness gate and the environment. -/
theorem c3_end_vs_node_equiv :
    (∀ g : Pattern, metaVarFree g = true → ∀ (c : Node) (env : MetaVarEnv),
      (match_end_non_recursive g c).isSome
        = (match_node_non_recursive g c env).1.isSome)
    ∧ ∀ (mv : MetaVariable) (c : Node),
      match_end_non_recursive (.MetaVar mv) c = some c.range_end := by
  constructor
  · intro g hf c env
    exact end_node_equiv g c env hf
  · intro mv c
    rw [match_end_non_recursive]

theorem c3_witness :
    (match_end_non_recursive c3wGoal c3wCand).isSome
      = (match_node_non_recursive c3wGoal c3wCand MetaVarEnv.empty).1.isSome :=
  c3_end_vs_node_equiv.1 c3wGoal (by rfl) c3wCand MetaVarEnv.empty

/-- C4 counterexample: evaluating the leaf matcher on a lone-leaf
`Multiple` goal returns the candidate as a successful match (the
`debug_assert!` is compiled out of release builds), contradicting the
claim that this state is never treated as a successful match. -/
theorem c4_counterexample :
    match_leaf_meta_var .Multiple fixNamed MetaVarEnv.empty
      = (some fixNamed, MetaVarEnv.empty) := rfl

/-- C4 (amended): a lone-leaf `Multiple` goal is flagged only by a
debug-build assertion; outside debug builds the leaf matcher treats it as
a successful match returning the candidate with the environment untouched
— never as a normal no-match. -/
theorem c4_multiple_lone_leaf (cand : Node) (env : MetaVarEnv) :
    match_leaf_meta_var .Multiple cand env = (some cand, env) := rfl

/-- C5: the ellipsis scan is lazy and minimal.  (1) When the scan commits,
there is a first candidate position n at which the next goal child matches
under the threaded environment, every earlier position fails, and the
provisional capture list is exactly the prefix before n; (2) if every
position fails the scan fails; (3) a failed scan makes the sequence-match
step at the ellipsis goal child (followed by a non-trivial non-ellipsis
goal child) fail. -/
theorem c5_ellipsis_lazy_minimal :
    (∀ (g' : Pattern) (cands acc : List Node) (env : MetaVarEnv)
      (cap rest : List Node) (env' : MetaVarEnv),
      ellipsisFind g' acc cands env = (some (cap, rest), env') →
      ∃ n, n < cands.length ∧ cap = acc ++ cands.take n
        ∧ rest = cands.drop n
        ∧ (match_node_non_recursive g' (cands.getD n defaultNode)
            (ellipsisScanEnv g' env (cands.take n))).1.isSome = true
        ∧ ∀ j, j < n → (match_node_non_recursive g' (cands.getD j defaultNode)
            (ellipsisScanEnv g' env (cands.take j))).1 = none)
    ∧ (∀ (g' : Pattern) (cands acc : List Node) (env : MetaVarEnv),
      (∀ j, j < cands.length →
        (match_node_non_recursive g' (cands.getD j defaultNode)
          (ellipsisScanEnv g' env (cands.take j))).1 = none) →
      (ellipsisFind g' acc cands env).1 = none)
    ∧ (∀ (g : Pattern) (gs : List Pattern) (g' : Pattern) (gs'' : List Pattern)
      (nm : Option String) (cands : List Node) (env : MetaVarEnv),
      try_get_ellipsis_mode g = .ok nm →
      gs.dropWhile Pattern.is_trivial = g' :: gs'' →
      try_get_ellipsis_mode g' = .error () →
      (ellipsisFind g' [] cands env).1 = none →
      (matchNodesGo (g :: gs) cands env).1 = none) :=
  ⟨ellipsisFind_lazy_some, ellipsisFind_all_fail,
   fun g gs g' gs'' nm cands env h hd h2 hfind =>
     matchNodesGo_ellipsis_scan_fail g gs g' gs'' nm cands env h hd h2 hfind⟩

theorem c5_witness : (ellipsisFind c5wG [] [c5wC] MetaVarEnv.empty).1 = none :=
  c5_ellipsis_lazy_minimal.2.1 c5wG [c5wC] [] MetaVarEnv.empty (by
    intro j hj
    have hj0 : j = 0 := Nat.lt_one_iff.mp (by simpa using hj)
    subst hj0
    simp [ellipsisScanEnv, match_node_non_recursive, c5wG, c5wC, Node.kind_id])

/-- C6: non-linear capture consistency.  When a name is already bound, a
new `Capture` occurrence fails the whole leaf match (environment
unchanged) whenever the new candidate is not exactly-equal to the stored
node, and succeeds — rebinding the name to the new candidate — whenever it
is exactly-equal (given the named-ness gate passes). -/
theorem c6_nonlinear (name : String) (b : Bool) (cand : Node)
    (env : MetaVarEnv) (m : Node)
    (hm : lookupAssoc env.singles name = some m) :
    (does_node_match_exactly m cand = false →
      match_node_non_recursive (.MetaVar (.Capture name b)) cand env
        = (none, env))
    ∧ ((b && !cand.is_named) = false → does_node_match_exactly m cand = true →
      (match_node_non_recursive (.MetaVar (.Capture name b)) cand env).1
          = some cand
      ∧ lookupAssoc ((match_node_non_recursive (.MetaVar (.Capture name b))
          cand env).2).singles name = some cand) := by
  constructor
  · intro hne
    simp [match_node_non_recursive, match_leaf_meta_var, MetaVarEnv.insert,
          hm, hne]
  · intro hgate heq
    simp [match_node_non_recursive, match_leaf_meta_var, MetaVarEnv.insert,
          hm, heq, hgate, lookupAssoc_updateAssoc_self]

theorem c6_witness :
    match_node_non_recursive (.MetaVar (.Capture "A" true)) c6Cand c6Env
      = (none, c6Env) :=
  (c6_nonlinear "A" true c6Cand c6Env c6Stored (by rfl)).1 (by decide)

/-- C7: the named-ness gate.  A `Capture` leaf succeeds exactly when the
gate passes (`must_be_named` false or candidate named) and no conflicting
prior binding exists; on success the binding `name ↦ candidate` is in the
resulting environment.  A `Dropped` leaf succeeds exactly when the gate
passes. -/
theorem c7_named_gate (name : String) (b : Bool) (cand : Node)
    (env : MetaVarEnv) :
    ((match_leaf_meta_var (.Capture name b) cand env).1.isSome
        = ((!b || cand.is_named) && captureCompatible name cand env))
    ∧ ((match_leaf_meta_var (.Capture name b) cand env).1.isSome = true →
        lookupAssoc ((match_leaf_meta_var (.Capture name b) cand env).2).singles
          name = some cand)
    ∧ ((match_leaf_meta_var (.Dropped b) cand env).1.isSome
        = (!b || cand.is_named)) := by
  refine ⟨?_, ?_, ?_⟩
  · cases b <;> cases hn : cand.is_named <;>
      simp [match_leaf_meta_var, MetaVarEnv.insert, captureCompatible, hn] <;>
      (cases h : lookupAssoc env.singles name <;> simp [h]) <;>
      (cases he : does_node_match_exactly _ cand <;> simp [he])
  · intro hs
    cases b <;> cases hn : cand.is_named <;>
      simp [match_leaf_meta_var, MetaVarEnv.insert, hn] at hs ⊢ <;>
      cases h : lookupAssoc env.singles name <;> simp [h] at hs ⊢ <;>
      try exact lookupAssoc_updateAssoc_self ..
    all_goals
      (cases he : does_node_match_exactly _ cand <;> simp [h, he] at hs ⊢ <;>
       exact lookupAssoc_updateAssoc_self ..)
  · cases b <;> cases hn : cand.is_named <;>
      simp [match_leaf_meta_var, hn]

theorem c7_witness :
    lookupAssoc ((match_leaf_meta_var (.Capture "A" true) c7wCand
      MetaVarEnv.empty).2).singles "A" = some c7wCand :=
  (c7_named_gate "A" true c7wCand MetaVarEnv.empty).2.1 (by decide)

/-- C8: candidate-scan skip rules for a non-ellipsis goal child.  When the
leaf matcher fails on the current candidate: an unnamed candidate is
silently skipped (the scan continues on the remaining candidates, keeping
any environment effects of the failed attempt), while a named candidate
fails the whole sequence match immediately. -/
theorem c8_scan_skip_rules (g : Pattern) (gs : List Pattern) (c : Node)
    (cs : List Node) (env : MetaVarEnv)
    (hok : try_get_ellipsis_mode g = .error ())
    (hfail : (match_node_non_recursive g c env).1 = none) :
    (c.is_named = false → matchNodesGo (g :: gs) (c :: cs) env
      = matchNodesGo (g :: gs) cs (match_node_non_recursive g c env).2)
    ∧ (c.is_named = true → matchNodesGo (g :: gs) (c :: cs) env
      = (none, (match_node_non_recursive g c env).2)) := by
  constructor
  · intro hnm
    rw [matchNodesGo_err _ _ _ _ hok, matchNodesGo_err _ _ _ _ hok]
    rw [scanGo.eq_def]
    simp [hfail, hnm]
  · intro hnm
    rw [matchNodesGo_err _ _ _ _ hok, scanGo.eq_def]
    simp [hfail, hnm]

theorem c8_witness :
    matchNodesGo [c8wG] [c8wPunct, c8wX] MetaVarEnv.empty
      = matchNodesGo [c8wG] [c8wX]
          (match_node_non_recursive c8wG c8wPunct MetaVarEnv.empty).2 :=
  (c8_scan_skip_rules c8wG [] c8wPunct [c8wX] MetaVarEnv.empty rfl
    (by simp [match_node_non_recursive, c8wG, c8wPunct, Node.kind_id])).1 rfl

/-- C9: the named-leaf relaxation.  For nodes with distinct identities
where at least one side is a named leaf, exact-equality is source-text
equality, regardless of kind ids or internal structure. -/
theorem c9_named_leaf_text (a b : Node)
    (h1 : (a.node_id == b.node_id) = false)
    (h2 : (a.is_named_leaf || b.is_named_leaf) = true) :
    does_node_match_exactly a b = (a.text == b.text) := by
  cases a with | node gid gkind gtext ge gn gch =>
  cases b with | node cid ckind ctext ce cn cch =>
  rw [does_node_match_exactly]
  simp only [Node.node_id] at h1
  simp only [Node.text]
  simp [h1, h2]

theorem c9_witness :
    does_node_match_exactly c9wA c9wB = (c9wA.text == c9wB.text) :=
  c9_named_leaf_text c9wA c9wB (by decide) (by decide)

/-- C10: the exact-equality checker is symmetric. -/
theorem c10_exact_equality_symm (a b : Node) :
    does_node_match_exactly a b = does_node_match_exactly b a :=
  does_node_match_exactly_comm a b
